import Mathlib

/-! Shallow embedding of the NFL Pool Tracker update pipeline.

The repository consists of several near-duplicate drafts of one script
(update.mjs plus four unnamed variants).  Pure computation is modelled over
the rational numbers; JavaScript objects are modelled as association lists
in insertion order; a remote fetch that may throw is modelled as an
Option-valued input (none = the fetch threw or the value was null).
Each definition is translated from the source file and line range named
in its comment. -/

/-! ### String helpers (update.mjs line 8, the helper named U) -/

/-- ASCII trim of both ends of a character list (model of the trim in U). -/
def trimChars (l : List Char) : List Char :=
  ((l.dropWhile Char.isWhitespace).reverse.dropWhile Char.isWhitespace).reverse

/-- Model of the helper U from update.mjs line 8: uppercase, then trim. -/
def U (s : String) : String :=
  String.mk (trimChars (s.data.map Char.toUpper))

/-- Does the first list lead (start) the second? -/
def seqLead : List Char → List Char → Bool
  | [], _ => true
  | _ :: _, [] => false
  | a :: as, b :: bs => a == b && seqLead as bs

/-- Is the first list a contiguous run inside the second?  Model of the
JavaScript String.includes used by the market classifier. -/
def seqInside : List Char → List Char → Bool
  | sub, [] => sub.isEmpty
  | sub, c :: t => seqLead sub (c :: t) || seqInside sub t

/-- Model of s.includes(sub) on strings. -/
def includesStr (s sub : String) : Bool := seqInside sub.data s.data

/-! ### Odds conversion (update.mjs lines 11 to 16, mlToProb)

All variants of mlToProb agree on the numeric core: a negative price n
gives (-n)/((-n)+100), a non-negative price gives 100/(n+100).  The
string-parsing front end differs per draft but on an already numeric,
finite input every variant reaches the same core, so the model takes the
parsed number directly; a null or unparsable input is modelled as none. -/

/-- Numeric core of mlToProb (update.mjs line 15). -/
def mlToProbNum (x : ℚ) : ℚ :=
  if x < 0 then (-x) / ((-x) + 100) else 100 / (x + 100)

/-- mlToProb with the null guard of update.mjs lines 12 to 14: a missing or
unparsable price yields none, a finite number reaches the numeric core. -/
def mlToProb : Option ℚ → Option ℚ
  | none => none
  | some x => some (mlToProbNum x)

/-! ### De-vigorization (update.mjs lines 18 to 25, devigProbMap)

A JavaScript object of team to raw probability is an association list in
insertion order with unique keys. -/

/-- The entries of raw whose value is positive (update.mjs line 19). -/
def posEntries (raw : List (String × ℚ)) : List (String × ℚ) :=
  raw.filter (fun p => 0 < p.2)

/-- Sum of the positive values of raw (update.mjs line 20). -/
def posSum (raw : List (String × ℚ)) : ℚ :=
  ((posEntries raw).map Prod.snd).sum

/-- devigProbMap from update.mjs lines 18 to 25: if the sum of positive
values is at most 0 return the empty map, else scale every positive entry
by the reciprocal of that sum and drop the rest. -/
def devigProbMap (raw : List (String × ℚ)) : List (String × ℚ) :=
  if posSum raw ≤ 0 then []
  else (posEntries raw).map (fun p => (p.1, p.2 / posSum raw))

/-- Sum of the values of an association list. -/
def sumVals (l : List (String × ℚ)) : ℚ := (l.map Prod.snd).sum

/-! ### Outcome kinds and the futures merge (update.mjs lines 130 to 147)

Kind carries the four string tags used by every draft. -/

inductive Kind
  | sb
  | reach_sb
  | make_playoffs
  | div
  deriving DecidableEq

/-- One classified market as the merge loop of fetchESPNFuturesAuto sees
it: its classified kind and its de-vigorized team probability list. -/
structure Market where
  kind : Kind
  probs : List (String × ℚ)
  deriving DecidableEq

/-- One assignment futures[T][kind] = Math.max(futures[T][kind] or 0, p)
from update.mjs line 142, over a total record defaulting to 0 (a missing
JavaScript key reads as 0 through the or-0 guard). -/
def mergeStep (rec : String → Kind → ℚ) (k0 : Kind) (t : String) (p : ℚ) :
    String → Kind → ℚ :=
  fun t' k' => if t' = t ∧ k' = k0 then max (rec t k0) p else rec t' k'

/-- Folding one classified market into the record (update.mjs lines 139 to
143); each team key is re-normalized through U as in line 140. -/
def mergeMarket (rec : String → Kind → ℚ) (m : Market) : String → Kind → ℚ :=
  m.probs.foldl (fun r tp => mergeStep r m.kind (U tp.1) tp.2) rec

/-- The whole merge loop of fetchESPNFuturesAuto over a run: fold every
classified market into the empty record. -/
def foldMarkets (ms : List Market) : String → Kind → ℚ :=
  ms.foldl mergeMarket (fun _ _ => 0)

/-- The probabilities one market contributes to the pair (e, k). -/
def marketPrices (m : Market) (e : String) (k : Kind) : List ℚ :=
  if m.kind = k then (m.probs.filter (fun tp => U tp.1 = e)).map Prod.snd
  else []

/-- All probabilities contributed to (e, k) by a run, in processing order. -/
def contribs (ms : List Market) (e : String) (k : Kind) : List ℚ :=
  (ms.map (fun m => marketPrices m e k)).flatten

/-! ### Per-market probability extraction (update.mjs lines 110 to 127)

A book is one priced outcome: its resolved team name (none when the
outcome has no team reference, the resolution fetch failed, or the
resolved name is empty, which the code treats as falsy) and its price as
read by extractMLfromBook (none when absent or unparsable). -/

structure Book where
  team : Option String
  ml : Option ℚ
  deriving DecidableEq

/-- JavaScript object read with default: first entry with the key wins. -/
def objGetD : List (String × ℚ) → String → ℚ → ℚ
  | [], _, d => d
  | p :: l, k, d => if p.1 = k then p.2 else objGetD l k d

/-- Does the object have the key? -/
def objHas : List (String × ℚ) → String → Bool
  | [], _ => false
  | p :: l, k => if p.1 = k then true else objHas l k

/-- JavaScript object write: replace the value in place when the key
exists, else append a new entry at the end. -/
def objSet : List (String × ℚ) → String → ℚ → List (String × ℚ)
  | [], k, v => [(k, v)]
  | p :: l, k, v => if p.1 = k then (k, v) :: l else p :: objSet l k v

/-- The body of the inner loop of extractTeamProbs (update.mjs lines 118
to 124): skip a book without a team or price, else write the running
maximum raw probability for that team. -/
def bookStep (raw : List (String × ℚ)) (b : Book) : List (String × ℚ) :=
  match b.team, mlToProb b.ml with
  | some t, some p => objSet raw t (max (objGetD raw t 0) p)
  | _, _ => raw

/-- The raw map built by extractTeamProbs over every line (future) of the
market and every book of every line (update.mjs lines 114 to 125). -/
def rawFromFuts (futs : List (List Book)) : List (String × ℚ) :=
  futs.foldl (fun raw books => books.foldl bookStep raw) []

/-- extractTeamProbs from update.mjs lines 114 to 127: build the raw map
across all lines, then de-vigorize it. -/
def extractTeamProbs (futs : List (List Book)) : List (String × ℚ) :=
  devigProbMap (rawFromFuts futs)

/-- The probability a single book contributes to team t, if any. -/
def bookPrice (b : Book) (t : String) : Option ℚ :=
  match b.team with
  | some t' => if t' = t then mlToProb b.ml else none
  | none => none

/-- All probabilities contributed to team t by one line. -/
def pricesIn (books : List Book) (t : String) : List ℚ :=
  books.filterMap (fun b => bookPrice b t)

/-- All probabilities contributed to team t across every line. -/
def pricesFor (futs : List (List Book)) (t : String) : List ℚ :=
  (futs.map (fun books => pricesIn books t)).flatten

/-! ### Market discovery (update.mjs lines 27 to 38 and 81 to 86)

A season index fetch either throws (none) or yields a root document whose
reference list sits under items or entries; each item may lack its ref. -/

structure RootDoc where
  items : Option (List (Option String))
  entries : Option (List (Option String))
  deriving DecidableEq

/-- tryJSON from update.mjs lines 33 to 38: return the first fetch that
does not throw, or none when every fetch throws. -/
def tryJSON : List (Option RootDoc) → Option RootDoc
  | [] => none
  | r :: rest =>
    match r with
    | some d => some d
    | none => tryJSON rest

/-- The reference list of a root document (update.mjs line 85): items,
else entries, else empty; drop missing and empty refs (filter Boolean). -/
def refsOfRoot (r : RootDoc) : List String :=
  (((match r.items with
     | some l => l
     | none => r.entries.getD []).filterMap id).filter (fun s => !(s == "")))

/-- listFuturesRefs from update.mjs lines 81 to 86, with the two season
index fetches (current year, prior year) passed in as its inputs. -/
def listFuturesRefs (cur prior : Option RootDoc) : List String :=
  match tryJSON [cur, prior] with
  | none => []
  | some root => refsOfRoot root

/-! ### Snapshot assembly and cache fallback (src/unnamed/part_002 lines
339 to 382)

The four named sections of the output document; each is an association
list (emptiness is the Object.keys length test of the code). -/

structure Snapshot where
  nflNextGame : List (String × ℚ)
  nflFutures : List (String × List (Kind × ℚ))
  nflFPI : List (String × ℚ)
  nflCurrentOU : List (String × ℚ)
  deriving DecidableEq

/-- One cache-preserving substitution (part_002 lines 359 to 366): keep
the previous non-empty section when the fresh one is empty. -/
def keepCached {α : Type} (fresh : List α) (prevSec : Option (List α)) : List α :=
  match prevSec with
  | some ps => if fresh.isEmpty && !ps.isEmpty then ps else fresh
  | none => fresh

/-- The payload assembly of the main function of part_002 (lines 339 to
382): nflNextGame and nflFutures are taken from the fresh run as is; only
nflFPI and nflCurrentOU go through the cache substitution. -/
def assembleSnapshot (prev : Option Snapshot) (ng : List (String × ℚ))
    (fut : List (String × List (Kind × ℚ))) (fpi ou : List (String × ℚ)) :
    Snapshot :=
  ⟨ng, fut,
   keepCached fpi (prev.map (fun p => p.nflFPI)),
   keepCached ou (prev.map (fun p => p.nflCurrentOU))⟩

/-! ### FPI projection record assembly (update.mjs lines 490 to 504)

A body row has per-column parse results: an entry is none when the cell is
missing from the row or its text fails to parse as a number, and some q
when it parses to q.  A column index is an integer, negative when the
header did not expose that column. -/

/-- The guarded cell read of update.mjs lines 490 to 494: a negative
column index, an out-of-range cell, or a failed parse all yield none. -/
def fieldVal (cells : List (Option ℚ)) (ci : ℤ) : Option ℚ :=
  if 0 ≤ ci then
    match cells.get? ci.toNat with
    | some v => v
    | none => none
  else none

/-- The emitted probability of update.mjs lines 499 to 503: the nullish
coalescing to 0, then division by 100. -/
def emitProb (cells : List (Option ℚ)) (ci : ℤ) : ℚ :=
  ((fieldVal cells ci).getD 0) / 100

/-- The record shape written at update.mjs lines 497 to 504. -/
structure ProjectionRecord where
  projected_wins : ℚ
  playoff : ℚ
  div : ℚ
  conf : ℚ
  sb : ℚ
  win_sb : ℚ
  deriving DecidableEq

/-- Building one output record (update.mjs lines 490 to 504) from the
projected wins and the five mapped percentage columns. -/
def mkProjectionRecord (projWins : ℚ) (cells : List (Option ℚ))
    (ciPO ciDiv ciConf ciSBApp ciSBWin : ℤ) : ProjectionRecord :=
  ⟨projWins, emitProb cells ciPO, emitProb cells ciDiv, emitProb cells ciConf,
   emitProb cells ciSBApp, emitProb cells ciSBWin⟩

/-! ### Market classifiers (update.mjs lines 69 to 79 and
src/unnamed/part_002 lines 98 to 110)

Two drafts of kindFromTitleAndSize survive in the repository: the basic
one of update.mjs whose only conference rule is the substring CONFERENCE,
and the richer one of part_002 with explicit AFC and NFC champion rules. -/

/-- kindFromTitleAndSize from update.mjs lines 69 to 79. -/
def kindFromTitleAndSize (title : String) (size : ℕ) : Option Kind :=
  let t := U title
  if includesStr t ("SUPER BOWL") = true then some Kind.sb
  else if includesStr t ("CONFERENCE") = true then some Kind.reach_sb
  else if includesStr t ("MAKE PLAYOFFS") = true then some Kind.make_playoffs
  else if includesStr t ("DIVISION") = true then some Kind.div
  else if 30 ≤ size then some Kind.sb
  else if 14 ≤ size ∧ size ≤ 18 then some Kind.reach_sb
  else if 4 ≤ size ∧ size ≤ 6 ∧
      (includesStr t ("EAST") || includesStr t ("NORTH") ||
       includesStr t ("SOUTH") || includesStr t ("WEST")) = true then
    some Kind.div
  else none

namespace Part002

/-- kindFromTitleAndSize from src/unnamed/part_002 lines 98 to 110. -/
def kindFromTitleAndSize (title : String) (size : ℕ) : Option Kind :=
  let t := U title
  if includesStr t ("SUPER BOWL") = true then some Kind.sb
  else if includesStr t ("CONFERENCE CHAMP") = true then some Kind.reach_sb
  else if (includesStr t ("WIN AFC") || includesStr t ("AFC CHAMPION")) = true then
    some Kind.reach_sb
  else if (includesStr t ("WIN NFC") || includesStr t ("NFC CHAMPION")) = true then
    some Kind.reach_sb
  else if includesStr t ("MAKE PLAYOFFS") = true then some Kind.make_playoffs
  else if includesStr t ("DIVISION") = true then some Kind.div
  else if 30 ≤ size then some Kind.sb
  else if 14 ≤ size ∧ size ≤ 18 then some Kind.reach_sb
  else if 4 ≤ size ∧ size ≤ 6 ∧
      (includesStr t ("EAST") || includesStr t ("NORTH") ||
       includesStr t ("SOUTH") || includesStr t ("WEST")) = true then
    some Kind.div
  else none

end Part002

/-! ### Concrete inputs used by witnesses and counterexamples -/

/-- A two-entry raw map matching end-to-end scenario 2 of the spec. -/
def rawEx : List (String × ℚ) := [(("A"), 11 / 20), (("B"), 1 / 2)]

/-- A one-market run with a single team entry. -/
def msEx : List Market := [⟨Kind.sb, [(("A"), 1 / 3)]⟩]

/-- A market detail with two lines: the first line has one priced team
outcome, the second has two. -/
def cexFuts : List (List Book) :=
  [[⟨some ("A"), some (-100)⟩],
   [⟨some ("B"), some 100⟩, ⟨some ("C"), some 100⟩]]

/-- A current-season root whose fetch succeeds with an empty item list. -/
def curDocEx : RootDoc := ⟨some [], none⟩

/-- A prior-season root holding one reference. -/
def priorDocEx : RootDoc := ⟨some [some ("r1")], none⟩

/-- A previous snapshot with a non-empty futures section and a non-empty
win-total section. -/
def prevSnapEx : Snapshot :=
  ⟨[], [(("KC"), [(Kind.sb, 1 / 2)])], [], [(("KC"), 21 / 2)]⟩

/-! ### Helper lemmas -/

/-- In an association list with pairwise distinct keys, a key determines
its value. -/
theorem keysNodupValEq : ∀ (l : List (String × ℚ)) (k : String) (a b : ℚ),
    (l.map Prod.fst).Nodup → (k, a) ∈ l → (k, b) ∈ l → a = b := by
  intro l
  induction l with
  | nil => intro k a b _ ha; cases ha
  | cons p rest ih =>
    intro k a b hnd ha hb
    rw [List.map_cons, List.nodup_cons] at hnd
    rcases List.mem_cons.mp ha with h1 | h1
    · rcases List.mem_cons.mp hb with h2 | h2
      · exact congrArg Prod.snd (h1.trans h2.symm)
      · exfalso
        apply hnd.1
        rw [← h1]
        exact List.mem_map.mpr ⟨(k, b), h2, rfl⟩
    · rcases List.mem_cons.mp hb with h2 | h2
      · exfalso
        apply hnd.1
        rw [← h2]
        exact List.mem_map.mpr ⟨(k, a), h1, rfl⟩
      · exact ih k a b hnd.2 h1 h2

/-- Summing the values of a scaled map divides the sum of values. -/
theorem sumMapDiv (l : List (String × ℚ)) (s : ℚ) :
    (l.map (fun p => p.2 / s)).sum = (l.map Prod.snd).sum / s := by
  induction l with
  | nil => simp
  | cons p rest ih => simp [ih, add_div]

/-- Every output entry of devigProbMap descends from a positive input
entry with the same key, scaled by the positive-value sum. -/
theorem devigMemSrc (raw : List (String × ℚ)) (q : String × ℚ)
    (hq : q ∈ devigProbMap raw) :
    ∃ v, (q.1, v) ∈ raw ∧ 0 < v ∧ q.2 = v / posSum raw := by
  rw [devigProbMap] at hq
  split at hq
  · exact absurd hq (List.not_mem_nil q)
  · obtain ⟨p, hp, hpq⟩ := List.mem_map.mp hq
    rw [posEntries] at hp
    have hp2 := List.mem_filter.mp hp
    refine ⟨p.2, ?_, of_decide_eq_true hp2.2, ?_⟩
    · rw [← hpq]
      simpa using hp2.1
    · rw [← hpq]

/-- The accumulator never exceeds a running maximum. -/
theorem foldlMaxAccLe : ∀ (l : List ℚ) (a : ℚ), a ≤ l.foldl max a := by
  intro l
  induction l with
  | nil => intro a; simp
  | cons x xs ih =>
    intro a
    rw [List.foldl_cons]
    exact le_trans (le_max_left a x) (ih (max a x))

/-- Every element of the list is bounded by the running maximum. -/
theorem foldlMaxUB : ∀ (l : List ℚ) (a x : ℚ), x ∈ l → x ≤ l.foldl max a := by
  intro l
  induction l with
  | nil => intro a x h; cases h
  | cons y ys ih =>
    intro a x h
    rw [List.foldl_cons]
    rcases List.mem_cons.mp h with h | h
    · subst h
      exact le_trans (le_max_right a x) (foldlMaxAccLe ys (max a x))
    · exact ih (max a y) x h

/-- A running maximum is the accumulator or an element of the list. -/
theorem foldlMaxAccOrMem : ∀ (l : List ℚ) (a : ℚ),
    l.foldl max a = a ∨ l.foldl max a ∈ l := by
  intro l
  induction l with
  | nil => intro a; left; rfl
  | cons y ys ih =>
    intro a
    rw [List.foldl_cons]
    rcases ih (max a y) with h | h
    · rcases max_choice a y with hm | hm
      · left; rw [h, hm]
      · right; rw [h, hm]; exact List.mem_cons_self y ys
    · right; exact List.mem_cons_of_mem y h

/-- Evaluating the inner merge loop of one market at one record cell:
the cell threads the running maximum of the probabilities the market
contributes to that cell. -/
theorem mergeFoldEval : ∀ (l : List (String × ℚ)) (rec : String → Kind → ℚ)
    (k0 : Kind) (e : String) (k : Kind),
    (l.foldl (fun r tp => mergeStep r k0 (U tp.1) tp.2) rec) e k
      = (if k0 = k then (l.filter (fun tp => U tp.1 = e)).map Prod.snd
         else []).foldl max (rec e k) := by
  intro l
  induction l with
  | nil =>
    intro rec k0 e k
    simp only [List.foldl_nil]
    split <;> simp
  | cons tp rest ih =>
    intro rec k0 e k
    rw [List.foldl_cons, ih]
    by_cases hk : k0 = k
    · subst hk
      by_cases he : U tp.1 = e
      · have hstep : mergeStep rec k0 (U tp.1) tp.2 e k0 = max (rec e k0) tp.2 := by
          simp [mergeStep, he]
        rw [hstep]
        simp [List.filter_cons, he]
      · have hstep : mergeStep rec k0 (U tp.1) tp.2 e k0 = rec e k0 := by
          have he' : ¬ e = U tp.1 := fun h => he h.symm
          simp [mergeStep, he']
        rw [hstep]
        simp [List.filter_cons, he]
    · have hstep : mergeStep rec k0 (U tp.1) tp.2 e k = rec e k := by
        have hne : ¬ (e = U tp.1 ∧ k = k0) := fun h => hk h.2.symm
        simp [mergeStep, hne]
      rw [hstep]
      simp [hk]

/-- Evaluating the fold of a run of markets at one record cell. -/
theorem foldMarketsEval : ∀ (ms : List Market) (rec : String → Kind → ℚ)
    (e : String) (k : Kind),
    (ms.foldl mergeMarket rec) e k = (contribs ms e k).foldl max (rec e k) := by
  intro ms
  induction ms with
  | nil => intro rec e k; simp [contribs]
  | cons m rest ih =>
    intro rec e k
    rw [List.foldl_cons, ih]
    have h1 : mergeMarket rec m e k = (marketPrices m e k).foldl max (rec e k) := by
      rw [mergeMarket, marketPrices]
      exact mergeFoldEval m.probs rec m.kind e k
    have h2 : contribs (m :: rest) e k = marketPrices m e k ++ contribs rest e k := by
      simp [contribs]
    rw [h1, h2, List.foldl_append]

/-- Contributions of an appended market. -/
theorem contribsAppend (ms : List Market) (m : Market) (e : String) (k : Kind) :
    contribs (ms ++ [m]) e k = contribs ms e k ++ marketPrices m e k := by
  simp [contribs]

/-- Reading back the key just written. -/
theorem objGetDSetSelf : ∀ (l : List (String × ℚ)) (k : String) (v d : ℚ),
    objGetD (objSet l k v) k d = v := by
  intro l
  induction l with
  | nil => intro k v d; simp [objSet, objGetD]
  | cons p rest ih =>
    intro k v d
    by_cases h : p.1 = k
    · simp [objSet, h, objGetD]
    · simp [objSet, h, objGetD, ih]

/-- Writing one key leaves every other key unchanged. -/
theorem objGetDSetNe : ∀ (l : List (String × ℚ)) (k k' : String) (v d : ℚ),
    k' ≠ k → objGetD (objSet l k v) k' d = objGetD l k' d := by
  intro l
  induction l with
  | nil =>
    intro k k' v d h
    have h' : ¬ k = k' := fun hh => h hh.symm
    simp [objSet, objGetD, h']
  | cons p rest ih =>
    intro k k' v d h
    by_cases hp : p.1 = k
    · have h' : ¬ k = k' := fun hh => h hh.symm
      have hp' : ¬ p.1 = k' := by rw [hp]; exact h'
      simp [objSet, hp, objGetD, h', hp']
    · by_cases hq : p.1 = k'
      · simp [objSet, hp, objGetD, hq, h]
      · simp [objSet, hp, objGetD, hq, ih _ _ _ _ h]

/-- The key just written is present. -/
theorem objHasSetSelf : ∀ (l : List (String × ℚ)) (k : String) (v : ℚ),
    objHas (objSet l k v) k = true := by
  intro l
  induction l with
  | nil => intro k v; simp [objSet, objHas]
  | cons p rest ih =>
    intro k v
    by_cases h : p.1 = k
    · simp [objSet, h, objHas]
    · simp [objSet, h, objHas, ih]

/-- Writing one key does not change the presence of another. -/
theorem objHasSetNe : ∀ (l : List (String × ℚ)) (k k' : String) (v : ℚ),
    k' ≠ k → objHas (objSet l k v) k' = objHas l k' := by
  intro l
  induction l with
  | nil =>
    intro k k' v h
    have h' : ¬ k = k' := fun hh => h hh.symm
    simp [objSet, objHas, h']
  | cons p rest ih =>
    intro k k' v h
    by_cases hp : p.1 = k
    · have h' : ¬ k = k' := fun hh => h hh.symm
      have hp' : ¬ p.1 = k' := by rw [hp]; exact h'
      simp [objSet, hp, objHas, h', hp']
    · by_cases hq : p.1 = k'
      · simp [objSet, hp, objHas, hq, h]
      · simp [objSet, hp, objHas, hq, ih _ _ _ h]

/-- One book updates the raw cell of team t to the running maximum of the
price it contributes, and leaves it unchanged when it contributes none. -/
theorem bookStepGet : ∀ (raw : List (String × ℚ)) (b : Book) (t : String),
    objGetD (bookStep raw b) t 0
      = ((bookPrice b t).elim (objGetD raw t 0) (fun p => max (objGetD raw t 0) p)) := by
  intro raw b t
  obtain ⟨tm, ml⟩ := b
  cases tm with
  | none => simp [bookStep, bookPrice]
  | some t' =>
    cases ml with
    | none => by_cases h : t' = t <;> simp [bookStep, bookPrice, mlToProb, h]
    | some x =>
      by_cases h : t' = t
      · subst h
        simp [bookStep, bookPrice, mlToProb, objGetDSetSelf]
      · simp [bookStep, bookPrice, mlToProb, h,
          objGetDSetNe _ _ _ _ _ (Ne.symm h)]

/-- One book preserves or adds presence of the team key. -/
theorem bookStepHas : ∀ (raw : List (String × ℚ)) (b : Book) (t : String),
    objHas (bookStep raw b) t = (objHas raw t || (bookPrice b t).isSome) := by
  intro raw b t
  obtain ⟨tm, ml⟩ := b
  cases tm with
  | none => simp [bookStep, bookPrice]
  | some t' =>
    cases ml with
    | none => by_cases h : t' = t <;> simp [bookStep, bookPrice, mlToProb, h]
    | some x =>
      by_cases h : t' = t
      · subst h
        simp [bookStep, bookPrice, mlToProb, objHasSetSelf]
      · simp [bookStep, bookPrice, mlToProb, h,
          objHasSetNe _ _ _ _ (Ne.symm h)]

/-- Evaluating the fold of one line of books at the raw cell of team t. -/
theorem booksFoldGet : ∀ (books : List Book) (raw : List (String × ℚ)) (t : String),
    objGetD (books.foldl bookStep raw) t 0
      = (pricesIn books t).foldl max (objGetD raw t 0) := by
  intro books
  induction books with
  | nil => intro raw t; simp [pricesIn]
  | cons b rest ih =>
    intro raw t
    rw [List.foldl_cons, ih]
    cases hb : bookPrice b t with
    | none => simp [pricesIn, List.filterMap_cons, hb, bookStepGet]
    | some p => simp [pricesIn, List.filterMap_cons, hb, bookStepGet]

/-- Evaluating the fold of one line of books at presence of team t. -/
theorem booksFoldHas : ∀ (books : List Book) (raw : List (String × ℚ)) (t : String),
    objHas (books.foldl bookStep raw) t
      = (objHas raw t || !(pricesIn books t).isEmpty) := by
  intro books
  induction books with
  | nil => intro raw t; simp [pricesIn]
  | cons b rest ih =>
    intro raw t
    rw [List.foldl_cons, ih]
    cases hb : bookPrice b t with
    | none => simp [pricesIn, List.filterMap_cons, hb, bookStepHas]
    | some p => simp [pricesIn, List.filterMap_cons, hb, bookStepHas]

/-- The raw map of extractTeamProbs holds, at every team, the running
maximum of the prices contributed by every book of every line. -/
theorem rawFromFutsGet : ∀ (futs : List (List Book)) (t : String),
    objGetD (rawFromFuts futs) t 0 = (pricesFor futs t).foldl max 0 := by
  have gen : ∀ (futs : List (List Book)) (raw : List (String × ℚ)) (t : String),
      objGetD (futs.foldl (fun raw books => books.foldl bookStep raw) raw) t 0
        = (pricesFor futs t).foldl max (objGetD raw t 0) := by
    intro futs
    induction futs with
    | nil => intro raw t; simp [pricesFor]
    | cons books rest ih =>
      intro raw t
      rw [List.foldl_cons, ih]
      have h2 : pricesFor (books :: rest) t = pricesIn books t ++ pricesFor rest t := by
        simp [pricesFor]
      rw [h2, List.foldl_append, booksFoldGet]
  intro futs t
  exact gen futs [] t

/-- A team key is present in the raw map exactly when some book of some
line contributes a price for it. -/
theorem rawFromFutsHas : ∀ (futs : List (List Book)) (t : String),
    objHas (rawFromFuts futs) t = !(pricesFor futs t).isEmpty := by
  have gen : ∀ (futs : List (List Book)) (raw : List (String × ℚ)) (t : String),
      objHas (futs.foldl (fun raw books => books.foldl bookStep raw) raw) t
        = (objHas raw t || !(pricesFor futs t).isEmpty) := by
    intro futs
    induction futs with
    | nil => intro raw t; simp [pricesFor]
    | cons books rest ih =>
      intro raw t
      rw [List.foldl_cons, ih]
      have h2 : pricesFor (books :: rest) t = pricesIn books t ++ pricesFor rest t := by
        simp [pricesFor]
      rw [h2, booksFoldHas]
      cases hpi : pricesIn books t with
      | nil => simp
      | cons x xs => simp
  intro futs t
  have h := gen futs [] t
  simpa [objHas] using h

/-! ### Claim theorems -/

/-- C1: devigorize (devigProbMap): for every input map with pairwise
distinct keys, (1) if the map is non-empty and all values positive, the
output values sum to 1; (2) the empty map yields the empty map; (3) every
entry with non-positive value is absent from the output; (4) if the sum
of the positive entries is at most 0 the output is empty; (5) each
retained key maps to its input value divided by the sum of the positive
input values. -/
theorem devig_claim (raw : List (String × ℚ)) (hnd : (raw.map Prod.fst).Nodup) :
    (raw ≠ [] → (∀ p ∈ raw, 0 < p.2) → sumVals (devigProbMap raw) = 1)
    ∧ devigProbMap ([] : List (String × ℚ)) = []
    ∧ (∀ p ∈ raw, p.2 ≤ 0 → ∀ q ∈ devigProbMap raw, q.1 ≠ p.1)
    ∧ (posSum raw ≤ 0 → devigProbMap raw = [])
    ∧ (∀ q ∈ devigProbMap raw, ∃ v, (q.1, v) ∈ raw ∧ 0 < v ∧ q.2 = v / posSum raw) := by
  refine ⟨?_, ?_, ?_, ?_, fun q hq => devigMemSrc raw q hq⟩
  · intro hne hpos
    have hfil : posEntries raw = raw := by
      rw [posEntries]
      exact List.filter_eq_self.mpr (fun p hp => decide_eq_true (hpos p hp))
    have hsum : 0 < posSum raw := by
      rw [posSum, hfil]
      apply List.sum_pos
      · intro x hx
        obtain ⟨p, hp, hpx⟩ := List.mem_map.mp hx
        rw [← hpx]
        exact hpos p hp
      · simpa using hne
    rw [devigProbMap, if_neg (not_le.mpr hsum), sumVals, List.map_map]
    have hcomp : (Prod.snd ∘ fun p : String × ℚ => (p.1, p.2 / posSum raw))
        = fun p : String × ℚ => p.2 / posSum raw := rfl
    rw [hcomp, sumMapDiv, ← posSum, div_self (ne_of_gt hsum)]
  · simp [devigProbMap, posSum, posEntries]
  · intro p hp hple q hq hqp
    obtain ⟨v, hv, hvpos, _⟩ := devigMemSrc raw q hq
    rw [hqp] at hv
    have : v = p.2 := keysNodupValEq raw p.1 v p.2 hnd hv (by simpa using hp)
    rw [this] at hvpos
    exact absurd hple (not_le.mpr hvpos)
  · intro h
    rw [devigProbMap, if_pos h]

/-- C1 witness: the non-empty all-positive map of scenario 2 of the spec
de-vigorizes to a map whose values sum to 1. -/
theorem devig_claim_witness : sumVals (devigProbMap rawEx) = 1 :=
  (devig_claim rawEx (by decide)).1 (by decide) (by norm_num [rawEx])

/-- C2: merge monotonicity: after folding any sequence of classified
markets, the stored cell of (entity, kind) is the running maximum of the
probabilities contributed to that cell; when at least one market
contributed, the cell equals the largest contribution; appending a market
never decreases the cell; appending one whose sole contribution exceeds
the cell sets the cell to it, and one whose sole contribution does not
exceed the cell leaves the cell unchanged. -/
theorem merge_monotonicity (ms : List Market) (e : String) (k : Kind) :
    foldMarkets ms e k = (contribs ms e k).foldl max 0
    ∧ ((∀ p ∈ contribs ms e k, 0 < p) → contribs ms e k ≠ [] →
        foldMarkets ms e k ∈ contribs ms e k
          ∧ ∀ p ∈ contribs ms e k, p ≤ foldMarkets ms e k)
    ∧ (∀ m : Market, foldMarkets ms e k ≤ foldMarkets (ms ++ [m]) e k)
    ∧ (∀ (m : Market) (p : ℚ), marketPrices m e k = [p] →
        foldMarkets ms e k < p → foldMarkets (ms ++ [m]) e k = p)
    ∧ (∀ (m : Market) (p : ℚ), marketPrices m e k = [p] →
        p ≤ foldMarkets ms e k → foldMarkets (ms ++ [m]) e k = foldMarkets ms e k) := by
  have base : ∀ ms' : List Market, foldMarkets ms' e k = (contribs ms' e k).foldl max 0 :=
    fun ms' => foldMarketsEval ms' (fun _ _ => 0) e k
  have happ : ∀ m : Market, foldMarkets (ms ++ [m]) e k
      = (marketPrices m e k).foldl max (foldMarkets ms e k) := by
    intro m
    rw [base (ms ++ [m]), contribsAppend, List.foldl_append, ← base ms]
  refine ⟨base ms, ?_, ?_, ?_, ?_⟩
  · intro hpos hne
    constructor
    · rcases foldlMaxAccOrMem (contribs ms e k) 0 with h | h
      · exfalso
        obtain ⟨x, hx⟩ := List.exists_mem_of_ne_nil _ hne
        have h1 := hpos x hx
        have h2 := foldlMaxUB (contribs ms e k) 0 x hx
        rw [h] at h2
        exact absurd h1 (not_lt.mpr h2)
      · rw [base ms]; exact h
    · intro p hp
      rw [base ms]
      exact foldlMaxUB _ 0 p hp
  · intro m
    rw [happ m]
    exact foldlMaxAccLe _ _
  · intro m p hmp hlt
    rw [happ m, hmp, List.foldl_cons, List.foldl_nil]
    exact max_eq_right (le_of_lt hlt)
  · intro m p hmp hle
    rw [happ m, hmp, List.foldl_cons, List.foldl_nil]
    exact max_eq_left hle

/-- C2 witness: a concrete one-market run in which the stored cell is the
largest (sole) contribution. -/
theorem merge_monotonicity_witness :
    foldMarkets msEx ("A") Kind.sb ∈ contribs msEx ("A") Kind.sb
      ∧ ∀ p ∈ contribs msEx ("A") Kind.sb, p ≤ foldMarkets msEx ("A") Kind.sb := by
  have hU : U ("A") = "A" := by decide
  have hc : contribs msEx ("A") Kind.sb = [1 / 3] := by
    norm_num [contribs, marketPrices, msEx, hU]
  exact (merge_monotonicity msEx ("A") Kind.sb).2.1
    (by rw [hc]; norm_num) (by rw [hc]; simp)

/-- C3 counterexample: the new run produces an empty futures section while
the previous snapshot holds a non-empty one, yet the assembled snapshot
keeps the empty fresh value: the cache substitution does not apply to the
nflFutures section, so it does not apply to every named section. -/
theorem cache_fallback_cex :
    prevSnapEx.nflFutures ≠ []
    ∧ (assembleSnapshot (some prevSnapEx) [] [] [] []).nflFutures = []
    ∧ (assembleSnapshot (some prevSnapEx) [] [] [] []).nflFutures
        ≠ prevSnapEx.nflFutures := by
  refine ⟨by simp [prevSnapEx], rfl, ?_⟩
  rw [show (assembleSnapshot (some prevSnapEx) [] [] [] []).nflFutures = [] from rfl]
  simp [prevSnapEx]

/-- C3 amended: the cache substitution applies independently to exactly
the nflFPI and nflCurrentOU sections: each of those is taken from the
previous snapshot exactly when the fresh value is empty and the previous
one is non-empty, and is the fresh value otherwise; nflNextGame and
nflFutures are always the fresh values; the nflFPI outcome does not
depend on any other section of the fresh run. -/
theorem cache_fallback_amended (prev : Option Snapshot) (ng : List (String × ℚ))
    (fut : List (String × List (Kind × ℚ))) (fpi ou : List (String × ℚ)) :
    (assembleSnapshot prev ng fut fpi ou).nflNextGame = ng
    ∧ (assembleSnapshot prev ng fut fpi ou).nflFutures = fut
    ∧ (fpi ≠ [] → (assembleSnapshot prev ng fut fpi ou).nflFPI = fpi)
    ∧ (∀ p, prev = some p → fpi = [] → p.nflFPI ≠ [] →
        (assembleSnapshot prev ng fut fpi ou).nflFPI = p.nflFPI)
    ∧ (∀ p, prev = some p → p.nflFPI = [] →
        (assembleSnapshot prev ng fut fpi ou).nflFPI = fpi)
    ∧ (prev = none → (assembleSnapshot prev ng fut fpi ou).nflFPI = fpi)
    ∧ (ou ≠ [] → (assembleSnapshot prev ng fut fpi ou).nflCurrentOU = ou)
    ∧ (∀ p, prev = some p → ou = [] → p.nflCurrentOU ≠ [] →
        (assembleSnapshot prev ng fut fpi ou).nflCurrentOU = p.nflCurrentOU)
    ∧ (∀ ng2 fut2 ou2, (assembleSnapshot prev ng2 fut2 fpi ou2).nflFPI
        = (assembleSnapshot prev ng fut fpi ou).nflFPI) := by
  refine ⟨rfl, rfl, ?_, ?_, ?_, ?_, ?_, ?_, fun _ _ _ => rfl⟩
  · intro hfpi
    cases prev with
    | none => rfl
    | some p =>
      cases fpi with
      | nil => exact absurd rfl hfpi
      | cons x xs => simp [assembleSnapshot, keepCached]
  · intro p hp hfpi hprev
    subst hp
    subst hfpi
    cases hpf : p.nflFPI with
    | nil => exact absurd hpf hprev
    | cons x xs => simp [assembleSnapshot, keepCached, hpf]
  · intro p hp hpf
    subst hp
    simp [assembleSnapshot, keepCached, hpf]
  · intro hp
    subst hp
    rfl
  · intro hou
    cases prev with
    | none => rfl
    | some p =>
      cases ou with
      | nil => exact absurd rfl hou
      | cons x xs => simp [assembleSnapshot, keepCached]
  · intro p hp hou hprev
    subst hp
    subst hou
    cases hpo : p.nflCurrentOU with
    | nil => exact absurd hpo hprev
    | cons x xs => simp [assembleSnapshot, keepCached, hpo]

/-- C3 witness: at a concrete previous snapshot with a non-empty
win-total section and a fresh run producing it empty, the assembled
snapshot carries the previous section forward. -/
theorem cache_fallback_witness :
    (assembleSnapshot (some prevSnapEx) [] [] [] []).nflCurrentOU
      = prevSnapEx.nflCurrentOU :=
  (cache_fallback_amended (some prevSnapEx) [] [] [] []).2.2.2.2.2.2.2.1
    prevSnapEx rfl rfl (by simp [prevSnapEx])

/-- C4: priceToProbability (mlToProb): a finite negative price p maps to
abs p / (abs p + 100), a finite non-negative price to 100 / (p + 100),
and both -100 and 100 map to one half. -/
theorem mlToProb_formula (x : ℚ) :
    (x < 0 → mlToProbNum x = |x| / (|x| + 100))
    ∧ (0 ≤ x → mlToProbNum x = 100 / (x + 100))
    ∧ mlToProb (some (-100)) = some (1 / 2)
    ∧ mlToProb (some 100) = some (1 / 2) := by
  refine ⟨?_, ?_, ?_, ?_⟩
  · intro h
    rw [mlToProbNum, if_pos h, abs_of_neg h]
  · intro h
    rw [mlToProbNum, if_neg (not_lt.mpr h)]
  · norm_num [mlToProb, mlToProbNum]
  · norm_num [mlToProb, mlToProbNum]

/-- C4 witness: the two formulas evaluated at the concrete prices -150
and 150. -/
theorem mlToProb_formula_witness :
    mlToProbNum (-150) = |(-150 : ℚ)| / (|(-150 : ℚ)| + 100)
      ∧ mlToProbNum 150 = 100 / ((150 : ℚ) + 100) :=
  ⟨(mlToProb_formula (-150)).1 (by norm_num),
   (mlToProb_formula 150).2.1 (by norm_num)⟩

/-- C5 counterexample: a market with two lines, the first line holding one
priced team outcome and the second line two; under the claim only the
larger second line would contribute, yet the extracted probability map
contains the entry of team A from the smaller first line. -/
theorem line_selection_cex :
    cexFuts.map List.length = [1, 2]
    ∧ ("A", (1 : ℚ) / 3) ∈ extractTeamProbs cexFuts := by
  refine ⟨by decide, ?_⟩
  have nAB : ¬(("A") : String) = "B" := by decide
  have nAC : ¬(("A") : String) = "C" := by decide
  have nBC : ¬(("B") : String) = "C" := by decide
  norm_num [extractTeamProbs, rawFromFuts, cexFuts, bookStep, mlToProb, mlToProbNum,
    objSet, objGetD, devigProbMap, posEntries, posSum, nAB, nAC, nBC, max_def]

/-- C5 amended: extractTeamProbs draws on every line of the market, not a
single selected one: the raw probability of each team is the running
maximum of the prices of every book naming that team across all lines, a
team appears in the raw map exactly when some book of some line prices
it, and the output is the de-vigorization of that raw map. -/
theorem line_merge_amended (futs : List (List Book)) (t : String) :
    extractTeamProbs futs = devigProbMap (rawFromFuts futs)
    ∧ objGetD (rawFromFuts futs) t 0 = (pricesFor futs t).foldl max 0
    ∧ (objHas (rawFromFuts futs) t = true ↔ pricesFor futs t ≠ []) := by
  refine ⟨rfl, rawFromFutsGet futs t, ?_⟩
  rw [rawFromFutsHas futs t]
  cases h : pricesFor futs t with
  | nil => simp [h]
  | cons x xs => simp [h]

/-- C5 witness: team A of the smaller line is present in the raw map of
the two-line market. -/
theorem line_merge_witness : objHas (rawFromFuts cexFuts) ("A") = true :=
  (line_merge_amended cexFuts ("A")).2.2.mpr
    (by simp [pricesFor, pricesIn, cexFuts, bookPrice, mlToProb, List.filterMap_cons])

/-- C6 counterexample: the current season fetch succeeds with an empty
reference list and the prior season holds one reference; the claim calls
for a retry yielding the prior list, but listFuturesRefs returns the
empty current-season list without consulting the prior season. -/
theorem discovery_fallback_cex :
    refsOfRoot curDocEx = []
    ∧ refsOfRoot priorDocEx = ["r1"]
    ∧ listFuturesRefs (some curDocEx) (some priorDocEx) = []
    ∧ listFuturesRefs (some curDocEx) (some priorDocEx) ≠ refsOfRoot priorDocEx := by
  refine ⟨by decide, by decide, by decide, by decide⟩

/-- C6 amended: the prior-season index is consulted exactly when the
current-season fetch throws: a successful current fetch is used as is
even when its reference list is empty; when the current fetch throws the
prior result is used; when both throw the result is the empty list, a
valid non-error outcome. -/
theorem discovery_fallback_amended (cur prior : Option RootDoc) :
    (∀ r, cur = some r → listFuturesRefs cur prior = refsOfRoot r)
    ∧ (cur = none → ∀ r, prior = some r → listFuturesRefs cur prior = refsOfRoot r)
    ∧ (cur = none → prior = none → listFuturesRefs cur prior = []) := by
  refine ⟨?_, ?_, ?_⟩
  · intro r hr
    subst hr
    rfl
  · intro hc r hp
    subst hc
    subst hp
    rfl
  · intro hc hp
    subst hc
    subst hp
    rfl

/-- C6 witness: a throwing current-season fetch falls back to the prior
season document. -/
theorem discovery_fallback_witness :
    listFuturesRefs none (some priorDocEx) = refsOfRoot priorDocEx :=
  (discovery_fallback_amended none (some priorDocEx)).2.1 rfl priorDocEx rfl

/-- C7 counterexample: a row whose playoff source cell fails to parse
still emits the playoff field, with the value 0 standing in for the
unknown cell, contradicting the claim that such a field is absent and
never 0. -/
theorem extraction_zero_cex :
    fieldVal [none] 0 = none
    ∧ (mkProjectionRecord 9 [none] 0 (-1) (-1) (-1) (-1)).playoff = 0 := by
  refine ⟨by decide, ?_⟩
  norm_num [mkProjectionRecord, emitProb, fieldVal]

/-- C7 amended: the record builder never throws, but a probability field
whose source cell is missing or fails to parse is emitted as the value 0,
while a parsed cell value q is emitted as q / 100. -/
theorem extraction_default_amended (cells : List (Option ℚ)) (ci : ℤ) :
    (fieldVal cells ci = none → emitProb cells ci = 0)
    ∧ (∀ q, fieldVal cells ci = some q → emitProb cells ci = q / 100) := by
  constructor
  · intro h
    simp [emitProb, h]
  · intro q h
    simp [emitProb, h]

/-- C7 witness: the two emission cases at concrete cells. -/
theorem extraction_default_witness :
    emitProb [none] 0 = 0 ∧ emitProb [some 55] 0 = 55 / 100 :=
  ⟨(extraction_default_amended [none] 0).1 (by decide),
   (extraction_default_amended [some 55] 0).2 55 (by simp [fieldVal])⟩

/-- C8 counterexample: on the classifier of update.mjs lines 69 to 79 the
market titled 2025 AFC Championship matches no text rule, so at 8
outcomes it is not classified at all, while the part_002 classifier
classifies it as reach_sb by its AFC champion text rule. -/
theorem classifier_priority_cex :
    kindFromTitleAndSize ("2025 AFC Championship") 8 = none
    ∧ Part002.kindFromTitleAndSize ("2025 AFC Championship") 8 = some Kind.reach_sb := by
  exact ⟨by decide, by decide⟩

/-- C8 amended: for the market titled 2025 AFC Championship, the part_002
classifier returns reach_sb at every outcome count through its AFC
champion text rule; the update.mjs classifier of lines 69 to 79 matches
no text rule on this title, so its result depends on the outcome count:
sb at 30 or more outcomes, reach_sb between 14 and 18, and no
classification otherwise. -/
theorem classifier_priority_amended (n : ℕ) :
    Part002.kindFromTitleAndSize ("2025 AFC Championship") n = some Kind.reach_sb
    ∧ kindFromTitleAndSize ("2025 AFC Championship") n =
      (if 30 ≤ n then some Kind.sb
       else if 14 ≤ n ∧ n ≤ 18 then some Kind.reach_sb
       else none) := by
  have h1 : includesStr (U ("2025 AFC Championship")) ("SUPER BOWL") = false := by decide
  have h2 : includesStr (U ("2025 AFC Championship")) ("CONFERENCE") = false := by decide
  have h2b : includesStr (U ("2025 AFC Championship")) ("CONFERENCE CHAMP") = false := by
    decide
  have h3 : (includesStr (U ("2025 AFC Championship")) ("WIN AFC")
      || includesStr (U ("2025 AFC Championship")) ("AFC CHAMPION")) = true := by decide
  have h4 : includesStr (U ("2025 AFC Championship")) ("MAKE PLAYOFFS") = false := by
    decide
  have h5 : includesStr (U ("2025 AFC Championship")) ("DIVISION") = false := by decide
  have h6 : (includesStr (U ("2025 AFC Championship")) ("EAST")
      || includesStr (U ("2025 AFC Championship")) ("NORTH")
      || includesStr (U ("2025 AFC Championship")) ("SOUTH")
      || includesStr (U ("2025 AFC Championship")) ("WEST")) = false := by decide
  constructor
  · simp [Part002.kindFromTitleAndSize, h1, h2b, h3]
  · simp [kindFromTitleAndSize, h1, h2, h4, h5, h6]

/-- C9 counterexample: -100 is a negative price whose probability is
exactly one half, not above it, and 0 is a non-negative price whose
probability is 1, above one half; both sign bounds of the claim fail. -/
theorem mlToProb_sign_cex :
    ((-100 : ℚ) < 0 ∧ ¬ (1 / 2 < mlToProbNum (-100)))
    ∧ ((0 : ℚ) ≤ 0 ∧ ¬ (mlToProbNum 0 ≤ 1 / 2)) := by
  norm_num [mlToProbNum]

/-- C9 amended: the sign bounds hold away from the degenerate band: every
price strictly below -100 maps strictly above one half, and every price
of at least 100 maps to at most one half. -/
theorem mlToProb_sign_amended (x : ℚ) :
    (x < -100 → 1 / 2 < mlToProbNum x) ∧ (100 ≤ x → mlToProbNum x ≤ 1 / 2) := by
  constructor
  · intro h
    rw [mlToProbNum, if_pos (by linarith)]
    rw [lt_div_iff₀ (by linarith)]
    linarith
  · intro h
    rw [mlToProbNum, if_neg (by push_neg; linarith)]
    rw [div_le_iff₀ (by linarith)]
    linarith

/-- C9 witness: the amended bounds at the concrete prices -150 and 200. -/
theorem mlToProb_sign_witness :
    1 / 2 < mlToProbNum (-150) ∧ mlToProbNum 200 ≤ 1 / 2 :=
  ⟨(mlToProb_sign_amended (-150)).1 (by norm_num),
   (mlToProb_sign_amended 200).2 (by norm_num)⟩

/-- C10: mlToProb is total: on a missing price it returns none, and every
number it returns lies in the half-open interval from 0 exclusive to 1
inclusive; a price of 0 maps to exactly 1, so the result is not always a
strict probability below 1. -/
theorem mlToProb_range (o : Option ℚ) :
    (∀ q, mlToProb o = some q → 0 < q ∧ q ≤ 1) ∧ mlToProb (some 0) = some 1 := by
  constructor
  · intro q h
    cases o with
    | none => exact absurd h (by simp [mlToProb])
    | some x =>
      have hq : q = mlToProbNum x := by
        have := h
        rw [mlToProb] at this
        exact (Option.some.injEq _ _ ▸ this).symm
      subst hq
      by_cases hx : x < 0
      · rw [mlToProbNum, if_pos hx]
        constructor
        · exact div_pos (by linarith) (by linarith)
        · rw [div_le_one (by linarith)]
          linarith
      · push_neg at hx
        rw [mlToProbNum, if_neg (not_lt.mpr hx)]
        constructor
        · exact div_pos (by norm_num) (by linarith)
        · rw [div_le_one (by linarith)]
          linarith
  · norm_num [mlToProb, mlToProbNum]

/-- C10 witness: the price 150 maps to two fifths, which lies in the
half-open unit interval. -/
theorem mlToProb_range_witness : 0 < (2 : ℚ) / 5 ∧ (2 : ℚ) / 5 ≤ 1 :=
  (mlToProb_range (some 150)).1 (2 / 5) (by norm_num [mlToProb, mlToProbNum])
